import Mathlib

/-!
Verification development for the `manage-repos` tool
(`manage_repos/manage_repos.py` and `manage_repos/__main__.py`).

Python strings are embedded as `List Char`. Each external command
invocation is abstracted by its exit code, supplied by an oracle
function; `subprocess.check_call` and `subprocess.run` are modelled by
`subprocessRun`, which raises (returns `.error`) exactly when `check`
is set and the exit code is non-zero, mirroring the `subprocess`
module. Each of the seven operations of `manage_repos.py` is embedded
as a function from its CLI arguments, its command-exit oracles and the
resolved repository list to a `BatchResult`, which distinguishes a
pre-loop `sys.exit(1)` (`fatal`), an uncaught exception escaping the
per-repository loop (`exn`), and a normal Python return (`ret`).
-/

namespace ManageRepos

/-- Python `str.strip()`: remove leading and trailing whitespace. -/
def pyStrip (s : List Char) : List Char :=
  ((s.dropWhile Char.isWhitespace).reverse.dropWhile Char.isWhitespace).reverse

/-- The suffix of `s` after the last occurrence of `c`; the whole of `s`
when `c` does not occur. This is Python `s.split(c)[-1]`. -/
def afterLastChar (c : Char) (s : List Char) : List Char :=
  (s.reverse.takeWhile (fun x => x != c)).reverse

/-- Fuel-driven worker for `replaceAll`. At each position, if `old` is a
prefix there, emit `new` and skip over the occurrence; otherwise keep the
character. This is Python `str.replace`: left-to-right, non-overlapping,
every occurrence. (The guard on `old.isEmpty` makes the empty pattern a
no-op; the program never calls `replace` with an empty pattern.) -/
def replaceAllGo (old new : List Char) : Nat → List Char → List Char
  | _, [] => []
  | 0, s => s
  | fuel + 1, c :: rest =>
    if old.isPrefixOf (c :: rest) && !old.isEmpty then
      new ++ replaceAllGo old new fuel ((c :: rest).drop old.length)
    else
      c :: replaceAllGo old new fuel rest

/-- Python `s.replace(old, new)`. -/
def replaceAll (old new s : List Char) : List Char :=
  replaceAllGo old new s.length s

/-- Python `os.path.join(destination, name)` for a relative `name` and a
destination not ending in a separator (the only case the tool exercises). -/
def pathJoin (destination name : List Char) : List Char :=
  destination ++ '/' :: name

/-- Character class `[a-zA-Z0-9\.\-\_]` of the config validation regex in
`__main__.check_config`. -/
def isUrlChar (c : Char) : Bool :=
  c.isAlphanum || c == '.' || c == '-' || c == '_'

/-- The config-line validation of `__main__.check_config`: the line must
match `^git@github.com:[a-zA-Z0-9\.\-\_]+/[a-zA-Z0-9\.\-\_]+\.git$`. -/
def validLine (s : List Char) : Bool :=
  let pre := "git@github.com:".toList
  if pre.isPrefixOf s then
    let rest := s.drop pre.length
    let owner := rest.takeWhile (fun x => x != '/')
    match rest.drop owner.length with
    | '/' :: nm =>
      let stem := nm.take (nm.length - 4)
      !owner.isEmpty && owner.all isUrlChar &&
        ".git".toList.isSuffixOf nm && nm.length > 4 && stem.all isUrlChar
    | _ => false
  else false

/-- The repository name derived in `_iter_repos`:
`line.split("/")[-1].replace(".git", "")`. -/
def deriveName (line : List Char) : List Char :=
  replaceAll ".git".toList [] (afterLastChar '/' line)

/-- One yielded tuple `(name, path, line)` of `_iter_repos`. -/
structure Repo where
  name : List Char
  path : List Char
  url : List Char
deriving DecidableEq, Repr

/-- The generator `_iter_repos`, materialised in file order: strip each
line, skip blank and `#` lines, derive name and path, and apply the
existence filter, which branches on whether the command is `clone`. -/
def iterRepos (command destination : List Char) (pathExists : List Char → Bool)
    (configLines : List (List Char)) : List Repo :=
  configLines.filterMap (fun raw =>
    let line := pyStrip raw
    if line.isEmpty || "#".toList.isPrefixOf line then none
    else
      let name := deriveName line
      let path := pathJoin destination name
      if command == "clone".toList then
        if pathExists path then none else some ⟨name, path, line⟩
      else
        if pathExists path then some ⟨name, path, line⟩ else none)

/-- The entries of the config file before the existence filter:
every non-blank, non-comment line with its derived name and path.
Used to state what `iterRepos` filters. -/
def candidateRepos (destination : List Char) (configLines : List (List Char)) :
    List Repo :=
  configLines.filterMap (fun raw =>
    let line := pyStrip raw
    if line.isEmpty || "#".toList.isPrefixOf line then none
    else
      let name := deriveName line
      some ⟨name, pathJoin destination name, line⟩)

/-- A subprocess invocation abstracted by its exit code. With `check`
set (`subprocess.check_call`) a non-zero exit raises
`CalledProcessError` (`.error`); without it (`subprocess.run`) the call
returns normally whatever the exit code. -/
def subprocessRun (check : Bool) (exitCode : Nat) : Except Unit Nat :=
  if check && exitCode != 0 then .error () else .ok exitCode

/-- `subprocess.check_call`. -/
def check_call (exitCode : Nat) : Except Unit Nat :=
  subprocessRun true exitCode

/-- Result of one operation run: `fatal` is `sys.exit(1)` during the
up-front parameter validation, before the per-repository loop; `exn` is
an uncaught exception escaping the loop (the batch aborts and nothing is
returned); `ret v` is a normal Python return with value `v`
(`none` models Python `None`). -/
inductive BatchResult where
  | fatal
  | exn
  | ret (value : Option (List (List Char)))
deriving DecidableEq, Repr

/-- Python truthiness test `not x` for an optional string argument:
true for `None` and for the empty string. -/
def falsyOpt (o : Option (List Char)) : Bool :=
  match o with
  | none => true
  | some s => s.isEmpty

/-- Python truthiness test `if x` for an optional string argument:
false for `None` and for the empty string. -/
def truthyOpt (o : Option (List Char)) : Bool :=
  match o with
  | none => false
  | some s => !s.isEmpty

/-- Stand-in for the interpolation of a `CalledProcessError` value
(`{e}` in the f-strings); its exact rendering is irrelevant to every
claim, only message identity and count matter. -/
def cpeStr : List Char := "CalledProcessError".toList

/-- An apostrophe, kept out of string literals. -/
def apos : Char := Char.ofNat 39

/-- Python `f"{x}"` for an optional string: `None` renders as `"None"`. -/
def pyOptStr (o : Option (List Char)) : List Char :=
  o.getD "None".toList

/-- Error message of `branch`:
`f"Error creating branch {args.branch} in {name} in {path}: {e}"`. -/
def branchErrMsg (b : List Char) (r : Repo) : List Char :=
  "Error creating branch ".toList ++ b ++ " in ".toList ++ r.name
    ++ " in ".toList ++ r.path ++ ": ".toList ++ cpeStr

/-- Per-repository body of `branch`: a single guarded
`git switch -c <branch>`; on `CalledProcessError` the error is recorded
and the loop continues. -/
def branchLoop (b : List Char) (switchE : Repo → Nat) :
    List Repo → List (List Char)
  | [] => []
  | r :: rest =>
    match check_call (switchE r) with
    | .ok _ => branchLoop b switchE rest
    | .error _ => branchErrMsg b r :: branchLoop b switchE rest

/-- The `branch` operation. It performs no up-front validation of
`args.branch`; with the argument missing (`None`) the first loop
iteration passes `None` inside the `subprocess` argument list, which
raises an uncaught `TypeError` (`exn`); with no yielded repository the
function returns the empty error list. -/
def branchOp (branchArg : Option (List Char)) (switchE : Repo → Nat)
    (repos : List Repo) : BatchResult :=
  match branchArg, repos with
  | none, [] => .ret (some [])
  | none, _ :: _ => .exn
  | some b, rs => .ret (some (branchLoop b switchE rs))

/-- Exit-code oracles for the four commands `clone` runs per repository. -/
structure CloneExits where
  cloneE : Repo → Nat
  renameE : Repo → Nat
  addE : Repo → Nat
  remoteVE : Repo → Nat

/-- Error messages of `clone`. -/
def cloneErrMsg (r : Repo) : List Char :=
  "Error cloning ".toList ++ r.name ++ " from ".toList ++ r.url
    ++ " to ".toList ++ r.path ++ ": ".toList ++ cpeStr

/-- Error message of the `origin` → `upstream` rename step of `clone`. -/
def renameErrMsg (r : Repo) : List Char :=
  "Error renaming origin to upstream in ".toList ++ r.name ++ " in ".toList
    ++ r.path ++ ": ".toList ++ cpeStr

/-- Error message of the fork-remote add step of `clone`. -/
def addRemoteErrMsg (r : Repo) : List Char :=
  "Error setting remote in ".toList ++ r.name ++ " in ".toList ++ r.path
    ++ ": ".toList ++ cpeStr

/-- The owner segment extracted by
`re.search(".+:(.+?)/.*$", repo).group(1)`: with the greedy `.+` the
match anchors at the last `:`, and the lazy group stops at the first
`/` after it. On the validated URL shape (a single `:`, then the owner,
then `/`) this is the text between `:` and `/`. -/
def ownerOf (url : List Char) : List Char :=
  (afterLastChar ':' url).takeWhile (fun x => x != '/')

/-- The fork URL computed by `clone`:
`repo.replace(original_remote, args.github_user)` — a plain string
replacement of every occurrence of the owner substring in the URL. -/
def computeForkUrl (url user : List Char) : List Char :=
  replaceAll (ownerOf url) user url

/-- Per-repository body of `clone`: guarded `git clone`; if the
fork-remote option is truthy (`if args.set_remote:` — a truthiness
test, false for `None` and for an empty string), guarded rename and
guarded `git remote add`; then an UNGUARDED `git remote -v` whose
failure raises out of the loop (`.error`). `continue` after a failed
clone, rename or add skips the `git remote -v` line. -/
def cloneRepoStep (setRemote githubUser : Option (List Char)) (ex : CloneExits)
    (r : Repo) : Except Unit (List (List Char)) :=
  match check_call (ex.cloneE r) with
  | .error _ => .ok [cloneErrMsg r]
  | .ok _ =>
    if truthyOpt setRemote then
      match check_call (ex.renameE r) with
      | .error _ => .ok [renameErrMsg r]
      | .ok _ =>
        let _fork := computeForkUrl r.url (pyOptStr githubUser)
        match check_call (ex.addE r) with
        | .error _ => .ok [addRemoteErrMsg r]
        | .ok _ =>
          match check_call (ex.remoteVE r) with
          | .error _ => .error ()
          | .ok _ => .ok []
    else
      match check_call (ex.remoteVE r) with
      | .error _ => .error ()
      | .ok _ => .ok []

/-- The per-repository loop of `clone`; an `.error` from a step aborts
the whole batch, discarding the errors accumulated so far. -/
def cloneLoop (setRemote githubUser : Option (List Char)) (ex : CloneExits) :
    List Repo → Except Unit (List (List Char))
  | [] => .ok []
  | r :: rest =>
    match cloneRepoStep setRemote githubUser ex r with
    | .error _ => .error ()
    | .ok es =>
      match cloneLoop setRemote githubUser ex rest with
      | .error _ => .error ()
      | .ok rest2 => .ok (es ++ rest2)

/-- The `clone` operation: fatal when `--set-remote` is truthy
(`if args.set_remote and args.github_user is None` — the first
operand is a truthiness test, the second an identity test with `None`)
while `--github-user` is absent; otherwise the loop, returning the
error list. -/
def cloneOp (setRemote githubUser : Option (List Char)) (ex : CloneExits)
    (repos : List Repo) : BatchResult :=
  if truthyOpt setRemote && githubUser.isNone then .fatal
  else
    match cloneLoop setRemote githubUser ex repos with
    | .error _ => .exn
    | .ok errs => .ret (some errs)

/-- Error message of `patch`:
`f"Error applying patch {args.patch} in {path}: {e}"`. -/
def patchErrMsg (p : List Char) (r : Repo) : List Char :=
  "Error applying patch ".toList ++ p ++ " in ".toList ++ r.path
    ++ ": ".toList ++ cpeStr

/-- Per-repository body of `patch`: the patch file is copied into the
working tree, then guarded `git apply` runs. The second component
records whether the copy was removed again: on apply failure the
`continue` in the `except` branch skips the `os.remove` line, so the
copy stays. -/
def patchRepoStep (p : List Char) (applyE : Repo → Nat) (r : Repo) :
    List (List Char) × Bool :=
  match check_call (applyE r) with
  | .error _ => ([patchErrMsg p r], false)
  | .ok _ => ([], true)

/-- The per-repository loop of `patch`: accumulated errors and, per
repository, whether the copied patch file was removed. -/
def patchLoop (p : List Char) (applyE : Repo → Nat) :
    List Repo → List (List Char) × List (Repo × Bool)
  | [] => ([], [])
  | r :: rest =>
    let s := patchRepoStep p applyE r
    let t := patchLoop p applyE rest
    (s.1 ++ t.1, (r, s.2) :: t.2)

/-- The `patch` operation: fatal when no patch file is given or the
given file does not exist; otherwise the loop, returning the errors. -/
def patchOp (patchArg : Option (List Char)) (patchFileExists : Bool)
    (applyE : Repo → Nat) (repos : List Repo) : BatchResult :=
  if falsyOpt patchArg then .fatal
  else if !patchFileExists then .fatal
  else .ret (some (patchLoop (patchArg.getD []) applyE repos).1)

/-- The `owner/repo` slug extracted by
`re.search(".+:(.+?).git$", repo).group(1)`: on the validated URL shape
this is everything after the last `:` minus the final four characters
(the unescaped `.` matches the dot of `.git`). -/
def ownerAndRepoOf (url : List Char) : List Char :=
  let t := afterLastChar ':' url
  t.take (t.length - 4)

/-- The `gh` argument vector built by `pr`, including the literal
space inside `f"-t {args.title}"` and `f"-b {args.body}"`. -/
def ghArgv (title branchDefault : List Char) (githubUser body : Option (List Char))
    (url currentBranch : List Char) : List (List Char) :=
  ["gh".toList, "pr".toList, "new".toList,
    "-t ".toList ++ title,
    "-R".toList ++ ownerAndRepoOf url,
    "-H".toList ++ pyOptStr githubUser ++ ":".toList ++ currentBranch,
    "-B".toList ++ branchDefault]
  ++ (match body with
      | none => []
      | some b => ["-b ".toList ++ b])

/-- Error message of the branch-read step of `pr`. -/
def prBranchErrMsg (r : Repo) : List Char :=
  "Unable to get branch from ".toList ++ r.name ++ ": ".toList ++ cpeStr
    ++ ".".toList

/-- The error string ASSIGNED by `pr` when the current branch is `main`.
It is never printed or recorded: the source continues
`+"for this repository."` on the next line, which is a separate
expression statement applying unary plus to a string and raises an
uncaught `TypeError` before the `print`, `append` and `continue` run. -/
def prSkipErrMsg (r : Repo) : List Char :=
  "Currently on branch ".toList ++ apos :: "main".toList ++ apos ::
    " in ".toList ++ r.name ++ ". Not creating a PR ".toList

/-- Error message of the `gh` step of `pr` (unreachable, see
`prRepoStep`). -/
def prCreateErrMsg (r : Repo) : List Char :=
  "Unable to create pull request for ".toList ++ r.name ++ ": ".toList ++ cpeStr

/-- Observable trace of one `pr` run: the accumulated (but never
returned) error list, the `gh` invocations with their argument vectors,
and the total seconds slept. -/
structure PrTrace where
  errors : List (List Char)
  ghCalls : List (Repo × List (List Char))
  sleepSeconds : Nat
deriving DecidableEq, Repr

/-- Per-repository body of `pr`. Both subprocess invocations use
`subprocess.run` without `check`, so neither raises; the two `except`
branches are kept in the translation but cannot be reached. The current
branch is compared against the literal `"main"`, not against
`args.branch_default`. When it IS `main`, the error string is assigned
and then the stray `+"for this repository."` statement raises an
uncaught `TypeError` (`.error`): nothing is printed or recorded and the
whole run aborts. Otherwise `gh` is invoked and `time.sleep(2)` runs
after it, whatever its exit code. -/
def prRepoStep (title branchDefault : List Char)
    (githubUser body : Option (List Char)) (currentBranchOf : Repo → List Char)
    (brE ghE : Repo → Nat) (r : Repo) : Except Unit PrTrace :=
  match subprocessRun false (brE r) with
  | .error _ => .ok ⟨[prBranchErrMsg r], [], 0⟩
  | .ok _ =>
    let branchName := currentBranchOf r
    if branchName == "main".toList then
      .error ()
    else
      match subprocessRun false (ghE r) with
      | .error _ => .ok ⟨[prCreateErrMsg r], [], 0⟩
      | .ok _ =>
        .ok ⟨[], [(r, ghArgv title branchDefault githubUser body r.url branchName)], 2⟩

/-- The per-repository loop of `pr`, concatenating traces in order; the
uncaught `TypeError` of a `main`-branch repository aborts the loop and
loses the trace accumulated so far. -/
def prLoop (title branchDefault : List Char)
    (githubUser body : Option (List Char)) (currentBranchOf : Repo → List Char)
    (brE ghE : Repo → Nat) : List Repo → Except Unit PrTrace
  | [] => .ok ⟨[], [], 0⟩
  | r :: rest =>
    match prRepoStep title branchDefault githubUser body currentBranchOf brE ghE r with
    | .error _ => .error ()
    | .ok s =>
      match prLoop title branchDefault githubUser body currentBranchOf brE ghE rest with
      | .error _ => .error ()
      | .ok t =>
        .ok ⟨s.errors ++ t.errors, s.ghCalls ++ t.ghCalls,
          s.sleepSeconds + t.sleepSeconds⟩

/-- The `pr` operation: fatal when no (or an empty) title is given;
otherwise the loop runs and — unless a `main`-branch repository aborted
it with the uncaught `TypeError` — the function falls off its end,
returning Python `None`: the accumulated error list is never
returned. -/
def prOp (titleArg : Option (List Char)) (branchDefault : List Char)
    (githubUser body : Option (List Char)) (currentBranchOf : Repo → List Char)
    (brE ghE : Repo → Nat) (repos : List Repo) : BatchResult :=
  if falsyOpt titleArg then .fatal
  else
    match prLoop (titleArg.getD []) branchDefault githubUser body currentBranchOf
        brE ghE repos with
    | .error _ => .exn
    | .ok _ => .ret none

/-- Error message of `push`:
`f"Error pushing {name}/{args.branch} to {args.remote}: {e}"`. -/
def pushErrMsg (b remote : List Char) (r : Repo) : List Char :=
  "Error pushing ".toList ++ r.name ++ '/' :: b ++ " to ".toList ++ remote
    ++ ": ".toList ++ cpeStr

/-- Per-repository body of `push`: a single guarded `git push`. -/
def pushLoop (b remote : List Char) (pushE : Repo → Nat) :
    List Repo → List (List Char)
  | [] => []
  | r :: rest =>
    match check_call (pushE r) with
    | .ok _ => pushLoop b remote pushE rest
    | .error _ => pushErrMsg b remote r :: pushLoop b remote pushE rest

/-- The `push` operation: fatal when no (or an empty) branch is given,
checked before the loop; otherwise the loop, returning the errors. -/
def pushOp (branchArg : Option (List Char)) (remote : List Char)
    (pushE : Repo → Nat) (repos : List Repo) : BatchResult :=
  if falsyOpt branchArg then .fatal
  else .ret (some (pushLoop (branchArg.getD []) remote pushE repos))

/-- Error message recorded by `stage` for a failed `git add` AND for a
failed `git commit` — the source uses the same f-string text
`f"Error adding {name} to staging: {e}"` in both `except` branches. -/
def stageErrMsg (r : Repo) : List Char :=
  "Error adding ".toList ++ r.name ++ " to staging: ".toList ++ cpeStr

/-- The inner file loop of `stage`: a guarded `git add <file>` per file;
a failure records an error and continues with the next file. (For the
file `"."` a checkless `git status --porcelain` is run first; it only
feeds a print and is not modelled.) -/
def stageFilesLoop (addE : Repo → List Char → Nat) (r : Repo) :
    List (List Char) → List (List Char)
  | [] => []
  | f :: fs =>
    match check_call (addE r f) with
    | .ok _ => stageFilesLoop addE r fs
    | .error _ => stageErrMsg r :: stageFilesLoop addE r fs

/-- Per-repository body of `stage`: the inner file loop, then a guarded
`git commit -m <message> <file>` where `<file>` is the Python loop
variable, i.e. the LAST element of the file list. The commit is
attempted regardless of `git add` failures. With an empty file list the
loop variable is unbound at the commit and a `NameError` raises
(`.error`); `argparse` guarantees a non-empty list. The second
component records the commit invocation with its path argument. -/
def stageRepoStep (files : List (List Char)) (addE : Repo → List Char → Nat)
    (commitE : Repo → Nat) (r : Repo) :
    Except Unit (List (List Char) × List (Repo × List Char)) :=
  match files.getLast? with
  | none => .error ()
  | some lastFile =>
    let addErrs := stageFilesLoop addE r files
    match check_call (commitE r) with
    | .ok _ => .ok (addErrs, [(r, lastFile)])
    | .error _ => .ok (addErrs ++ [stageErrMsg r], [(r, lastFile)])

/-- The per-repository loop of `stage`: errors and commit invocations in
order. -/
def stageLoop (files : List (List Char)) (addE : Repo → List Char → Nat)
    (commitE : Repo → Nat) :
    List Repo → Except Unit (List (List Char) × List (Repo × List Char))
  | [] => .ok ([], [])
  | r :: rest =>
    match stageRepoStep files addE commitE r with
    | .error _ => .error ()
    | .ok s =>
      match stageLoop files addE commitE rest with
      | .error _ => .error ()
      | .ok t => .ok (s.1 ++ t.1, s.2 ++ t.2)

/-- The `stage` operation: fatal when no (or an empty) commit message is
given; otherwise the loop, returning the errors. -/
def stageOp (messageArg : Option (List Char)) (files : List (List Char))
    (addE : Repo → List Char → Nat) (commitE : Repo → Nat)
    (repos : List Repo) : BatchResult :=
  if falsyOpt messageArg then .fatal
  else
    match stageLoop files addE commitE repos with
    | .error _ => .exn
    | .ok s => .ret (some s.1)

/-- Exit-code oracles for the four commands `sync` runs per repository. -/
structure SyncExits where
  switchE : Repo → Nat
  fetchE : Repo → Nat
  rebaseE : Repo → Nat
  pushE : Repo → Nat

/-- Error message of the fetch step of `sync`, including the appended
second line (with the doubled `of of` of the source). -/
def syncFetchErrMsg (r : Repo) : List Char :=
  "Error fetching ".toList ++ r.name ++ ": ".toList ++ cpeStr
    ++ "\nPlease check to see if your fork of of ".toList ++ r.name
    ++ " exists.".toList

/-- Error message of the rebase step of `sync`. -/
def syncRebaseErrMsg (r : Repo) : List Char :=
  "Error rebasing ".toList ++ r.name ++ " to ".toList ++ r.path
    ++ ": ".toList ++ cpeStr

/-- Error message of the push step of `sync`. -/
def syncPushErrMsg (remote branchDefault : List Char) (r : Repo) : List Char :=
  "Error pushing ".toList ++ r.name ++ " to ".toList ++ remote ++ '/' :: branchDefault
    ++ ": ".toList ++ cpeStr

/-- Per-repository body of `sync`: the initial `git switch` is the one
UNGUARDED `check_call` in the loop — its failure raises out of the loop
(`.error`). The fetch, rebase and optional push steps are guarded. -/
def syncRepoStep (branchDefault remote : List Char) (pushFlag : Bool)
    (ex : SyncExits) (r : Repo) : Except Unit (List (List Char)) :=
  match check_call (ex.switchE r) with
  | .error _ => .error ()
  | .ok _ =>
    match check_call (ex.fetchE r) with
    | .error _ => .ok [syncFetchErrMsg r]
    | .ok _ =>
      match check_call (ex.rebaseE r) with
      | .error _ => .ok [syncRebaseErrMsg r]
      | .ok _ =>
        if pushFlag then
          match check_call (ex.pushE r) with
          | .error _ => .ok [syncPushErrMsg remote branchDefault r]
          | .ok _ => .ok []
        else .ok []

/-- The per-repository loop of `sync`; an `.error` from a step aborts
the whole batch, discarding the errors accumulated so far. -/
def syncLoop (branchDefault remote : List Char) (pushFlag : Bool)
    (ex : SyncExits) : List Repo → Except Unit (List (List Char))
  | [] => .ok []
  | r :: rest =>
    match syncRepoStep branchDefault remote pushFlag ex r with
    | .error _ => .error ()
    | .ok es =>
      match syncLoop branchDefault remote pushFlag ex rest with
      | .error _ => .error ()
      | .ok rest2 => .ok (es ++ rest2)

/-- The `sync` operation: no up-front validation; the loop, returning
the errors unless the unguarded `git switch` aborted the batch. -/
def syncOp (branchDefault remote : List Char) (pushFlag : Bool)
    (ex : SyncExits) (repos : List Repo) : BatchResult :=
  match syncLoop branchDefault remote pushFlag ex repos with
  | .error _ => .exn
  | .ok errs => .ret (some errs)

/-- The guarded-step errors `sync` records for one repository once its
`git switch` has succeeded. -/
def syncGuardedErrs (branchDefault remote : List Char) (pushFlag : Bool)
    (ex : SyncExits) (r : Repo) : List (List Char) :=
  if ex.fetchE r != 0 then [syncFetchErrMsg r]
  else if ex.rebaseE r != 0 then [syncRebaseErrMsg r]
  else if pushFlag && ex.pushE r != 0 then [syncPushErrMsg remote branchDefault r]
  else []

/-- The guarded-step errors `clone` records for one repository: one for a
failed clone; after a successful clone, in fork-remote mode, one for a
failed rename or a failed remote add. -/
def cloneGuardedErrs (setRemote : Option (List Char)) (ex : CloneExits)
    (r : Repo) : List (List Char) :=
  if ex.cloneE r != 0 then [cloneErrMsg r]
  else if truthyOpt setRemote then
    if ex.renameE r != 0 then [renameErrMsg r]
    else if ex.addE r != 0 then [addRemoteErrMsg r]
    else []
  else []

theorem subprocessRun_false (e : Nat) : subprocessRun false e = .ok e := rfl

theorem check_call_zero : check_call 0 = .ok 0 := rfl

theorem check_call_succ (n : Nat) : check_call (n + 1) = .error () := rfl

theorem branchLoop_eq (b : List Char) (se : Repo → Nat) (rs : List Repo) :
    branchLoop b se rs = (rs.filter (fun r => se r != 0)).map (branchErrMsg b) := by
  induction rs with
  | nil => rfl
  | cons r rest ih =>
    by_cases h : se r = 0
    · simp [branchLoop, h, check_call_zero, ih]
    · obtain ⟨n, hn⟩ := Nat.exists_eq_succ_of_ne_zero h
      simp [branchLoop, hn, check_call_succ, ih]

theorem pushLoop_eq (b remote : List Char) (pe : Repo → Nat) (rs : List Repo) :
    pushLoop b remote pe rs
      = (rs.filter (fun r => pe r != 0)).map (pushErrMsg b remote) := by
  induction rs with
  | nil => rfl
  | cons r rest ih =>
    by_cases h : pe r = 0
    · simp [pushLoop, h, check_call_zero, ih]
    · obtain ⟨n, hn⟩ := Nat.exists_eq_succ_of_ne_zero h
      simp [pushLoop, hn, check_call_succ, ih]

theorem patchRepoStep_eq (p : List Char) (ae : Repo → Nat) (r : Repo) :
    patchRepoStep p ae r
      = (if ae r != 0 then [patchErrMsg p r] else [], ae r == 0) := by
  by_cases h : ae r = 0
  · simp [patchRepoStep, h, check_call_zero]
  · obtain ⟨n, hn⟩ := Nat.exists_eq_succ_of_ne_zero h
    simp [patchRepoStep, hn, check_call_succ]

theorem patchLoop_fst (p : List Char) (ae : Repo → Nat) (rs : List Repo) :
    (patchLoop p ae rs).1
      = (rs.filter (fun r => ae r != 0)).map (patchErrMsg p) := by
  induction rs with
  | nil => rfl
  | cons r rest ih =>
    by_cases h : ae r = 0
    · simp [patchLoop, patchRepoStep_eq, h, ih]
    · simp [patchLoop, patchRepoStep_eq, h, ih]

theorem patchLoop_snd (p : List Char) (ae : Repo → Nat) (rs : List Repo) :
    (patchLoop p ae rs).2 = rs.map (fun r => (r, ae r == 0)) := by
  induction rs with
  | nil => rfl
  | cons r rest ih => simp [patchLoop, patchRepoStep_eq, ih]

theorem stageFilesLoop_eq (ae : Repo → List Char → Nat) (r : Repo)
    (files : List (List Char)) :
    stageFilesLoop ae r files
      = (files.filter (fun f => ae r f != 0)).map (fun _ => stageErrMsg r) := by
  induction files with
  | nil => rfl
  | cons f fs ih =>
    by_cases h : ae r f = 0
    · simp [stageFilesLoop, h, check_call_zero, ih]
    · obtain ⟨n, hn⟩ := Nat.exists_eq_succ_of_ne_zero h
      simp [stageFilesLoop, hn, check_call_succ, ih]

/-- The guarded-step errors `stage` records for one repository:
one per failing `git add`, then one more when the commit fails. -/
def stageGuardedErrs (files : List (List Char)) (ae : Repo → List Char → Nat)
    (ce : Repo → Nat) (r : Repo) : List (List Char) :=
  (files.filter (fun f => ae r f != 0)).map (fun _ => stageErrMsg r)
    ++ (if ce r != 0 then [stageErrMsg r] else [])

theorem stageRepoStep_eq (files : List (List Char)) (ae : Repo → List Char → Nat)
    (ce : Repo → Nat) (r : Repo) (h : files ≠ []) :
    stageRepoStep files ae ce r
      = .ok (stageGuardedErrs files ae ce r, [(r, files.getLastD [])]) := by
  obtain ⟨f, fs, rfl⟩ := List.exists_cons_of_ne_nil h
  obtain ⟨lf, hl⟩ : ∃ lf, (f :: fs).getLast? = some lf :=
    ⟨(f :: fs).getLast (by simp), List.getLast?_eq_getLast _ (by simp)⟩
  have hd : (f :: fs).getLastD [] = lf := by
    rw [List.getLastD_eq_getLast?, hl]; rfl
  by_cases hc : ce r = 0
  · simp [stageRepoStep, hl, hd, hc, check_call_zero, stageGuardedErrs,
      stageFilesLoop_eq]
  · obtain ⟨n, hn⟩ := Nat.exists_eq_succ_of_ne_zero hc
    simp [stageRepoStep, hl, hd, hn, check_call_succ, stageGuardedErrs,
      stageFilesLoop_eq]

theorem stageLoop_eq (files : List (List Char)) (ae : Repo → List Char → Nat)
    (ce : Repo → Nat) (rs : List Repo) (h : files ≠ []) :
    stageLoop files ae ce rs
      = .ok ((rs.map (stageGuardedErrs files ae ce)).flatten,
             rs.map (fun r => (r, files.getLastD []))) := by
  induction rs with
  | nil => rfl
  | cons r rest ih => simp [stageLoop, stageRepoStep_eq _ _ _ _ h, ih]

theorem prRepoStep_eq (title branchDefault : List Char)
    (githubUser body : Option (List Char)) (cbf : Repo → List Char)
    (brE ghE : Repo → Nat) (r : Repo) :
    prRepoStep title branchDefault githubUser body cbf brE ghE r
      = if cbf r == "main".toList then .error ()
        else .ok ⟨[], [(r, ghArgv title branchDefault githubUser body r.url (cbf r))], 2⟩ := by
  by_cases h : cbf r == "main".toList
  · simp [prRepoStep, subprocessRun_false, h]
  · simp [prRepoStep, subprocessRun_false, h]

theorem prLoop_oracle_indep (title branchDefault : List Char)
    (githubUser body : Option (List Char)) (cbf : Repo → List Char)
    (b1 g1 b2 g2 : Repo → Nat) (rs : List Repo) :
    prLoop title branchDefault githubUser body cbf b1 g1 rs
      = prLoop title branchDefault githubUser body cbf b2 g2 rs := by
  induction rs with
  | nil => rfl
  | cons r rest ih =>
    by_cases h : cbf r = "main".toList
    · simp [prLoop, prRepoStep_eq, h]
    · have h4 : cbf r ≠ ['m', 'a', 'i', 'n'] := h
      simp [prLoop, prRepoStep_eq, h4, ih]

theorem prLoop_eq_of_no_main (title branchDefault : List Char)
    (githubUser body : Option (List Char)) (cbf : Repo → List Char)
    (brE ghE : Repo → Nat) (rs : List Repo)
    (h : ∀ r ∈ rs, cbf r ≠ "main".toList) :
    prLoop title branchDefault githubUser body cbf brE ghE rs
      = .ok ⟨[],
          rs.map (fun r => (r, ghArgv title branchDefault githubUser body r.url (cbf r))),
          2 * rs.length⟩ := by
  induction rs with
  | nil => rfl
  | cons r rest ih =>
    have h1 : cbf r ≠ ['m', 'a', 'i', 'n'] := h r (by simp)
    have h2 : ∀ x ∈ rest, cbf x ≠ "main".toList := fun x hx => h x (by simp [hx])
    simp [prLoop, prRepoStep_eq, h1, ih h2, Nat.mul_succ, Nat.add_comm]

theorem prLoop_abort_of_main (title branchDefault : List Char)
    (githubUser body : Option (List Char)) (cbf : Repo → List Char)
    (brE ghE : Repo → Nat) (r : Repo) (rs : List Repo)
    (h : cbf r = "main".toList) :
    prLoop title branchDefault githubUser body cbf brE ghE (r :: rs)
      = .error () := by
  simp [prLoop, prRepoStep_eq, h]

theorem syncRepoStep_eq_of_switch (branchDefault remote : List Char)
    (pushFlag : Bool) (ex : SyncExits) (r : Repo) (h : ex.switchE r = 0) :
    syncRepoStep branchDefault remote pushFlag ex r
      = .ok (syncGuardedErrs branchDefault remote pushFlag ex r) := by
  by_cases hf : ex.fetchE r = 0
  · by_cases hr : ex.rebaseE r = 0
    · by_cases hp : ex.pushE r = 0
      · simp [syncRepoStep, syncGuardedErrs, h, hf, hr, hp, check_call_zero]
      · obtain ⟨n, hn⟩ := Nat.exists_eq_succ_of_ne_zero hp
        cases pushFlag <;>
          simp [syncRepoStep, syncGuardedErrs, h, hf, hr, hn, check_call_zero,
            check_call_succ]
    · obtain ⟨n, hn⟩ := Nat.exists_eq_succ_of_ne_zero hr
      simp [syncRepoStep, syncGuardedErrs, h, hf, hn, check_call_zero,
        check_call_succ]
  · obtain ⟨n, hn⟩ := Nat.exists_eq_succ_of_ne_zero hf
    simp [syncRepoStep, syncGuardedErrs, h, hn, check_call_zero, check_call_succ]

theorem syncRepoStep_eq_of_switch_fail (branchDefault remote : List Char)
    (pushFlag : Bool) (ex : SyncExits) (r : Repo) (h : ex.switchE r ≠ 0) :
    syncRepoStep branchDefault remote pushFlag ex r = .error () := by
  obtain ⟨n, hn⟩ := Nat.exists_eq_succ_of_ne_zero h
  simp [syncRepoStep, hn, check_call_succ]

theorem syncLoop_eq_of_switch (branchDefault remote : List Char)
    (pushFlag : Bool) (ex : SyncExits) (rs : List Repo)
    (h : ∀ r ∈ rs, ex.switchE r = 0) :
    syncLoop branchDefault remote pushFlag ex rs
      = .ok ((rs.map (syncGuardedErrs branchDefault remote pushFlag ex)).flatten) := by
  induction rs with
  | nil => rfl
  | cons r rest ih =>
    have h1 : ex.switchE r = 0 := h r (by simp)
    have h2 : ∀ x ∈ rest, ex.switchE x = 0 := fun x hx => h x (by simp [hx])
    simp [syncLoop, syncRepoStep_eq_of_switch _ _ _ _ _ h1, ih h2]

theorem syncGuardedErrs_eq_nil (branchDefault remote : List Char)
    (pushFlag : Bool) (ex : SyncExits) (r : Repo) :
    (syncGuardedErrs branchDefault remote pushFlag ex r = []
      ↔ ex.fetchE r = 0 ∧ ex.rebaseE r = 0 ∧ (pushFlag = true → ex.pushE r = 0)) := by
  by_cases hf : ex.fetchE r = 0
  · by_cases hr : ex.rebaseE r = 0
    · cases pushFlag <;> by_cases hp : ex.pushE r = 0 <;>
        simp [syncGuardedErrs, hf, hr, hp]
    · simp [syncGuardedErrs, hf, hr]
  · simp [syncGuardedErrs, hf]

theorem cloneRepoStep_eq_of_remoteV (setRemote githubUser : Option (List Char))
    (ex : CloneExits) (r : Repo) (hv : ex.remoteVE r = 0) :
    cloneRepoStep setRemote githubUser ex r
      = .ok (cloneGuardedErrs setRemote ex r) := by
  by_cases hc : ex.cloneE r = 0
  · by_cases hsr : truthyOpt setRemote = true
    · by_cases hr : ex.renameE r = 0
      · by_cases ha : ex.addE r = 0
        · simp [cloneRepoStep, cloneGuardedErrs, hc, hsr, hr, ha, hv,
            check_call_zero]
        · obtain ⟨n, hn⟩ := Nat.exists_eq_succ_of_ne_zero ha
          simp [cloneRepoStep, cloneGuardedErrs, hc, hsr, hr, hn,
            check_call_zero, check_call_succ]
      · obtain ⟨n, hn⟩ := Nat.exists_eq_succ_of_ne_zero hr
        simp [cloneRepoStep, cloneGuardedErrs, hc, hsr, hn, check_call_zero,
          check_call_succ]
    · simp [cloneRepoStep, cloneGuardedErrs, hc, hsr, hv, check_call_zero]
  · obtain ⟨n, hn⟩ := Nat.exists_eq_succ_of_ne_zero hc
    simp [cloneRepoStep, cloneGuardedErrs, hn, check_call_succ]

theorem cloneRepoStep_abort (setRemote githubUser : Option (List Char))
    (ex : CloneExits) (r : Repo) (hc : ex.cloneE r = 0)
    (hra : truthyOpt setRemote = true → ex.renameE r = 0 ∧ ex.addE r = 0)
    (hv : ex.remoteVE r ≠ 0) :
    cloneRepoStep setRemote githubUser ex r = .error () := by
  obtain ⟨n, hn⟩ := Nat.exists_eq_succ_of_ne_zero hv
  by_cases hsr : truthyOpt setRemote = true
  · obtain ⟨hr, ha⟩ := hra hsr
    simp [cloneRepoStep, hc, hsr, hr, ha, hn, check_call_zero, check_call_succ]
  · simp [cloneRepoStep, hc, hsr, hn, check_call_zero, check_call_succ]

theorem cloneLoop_eq_of_remoteV (setRemote githubUser : Option (List Char))
    (ex : CloneExits) (rs : List Repo) (h : ∀ r ∈ rs, ex.remoteVE r = 0) :
    cloneLoop setRemote githubUser ex rs
      = .ok ((rs.map (cloneGuardedErrs setRemote ex)).flatten) := by
  induction rs with
  | nil => rfl
  | cons r rest ih =>
    have h1 : ex.remoteVE r = 0 := h r (by simp)
    have h2 : ∀ x ∈ rest, ex.remoteVE x = 0 := fun x hx => h x (by simp [hx])
    simp [cloneLoop, cloneRepoStep_eq_of_remoteV _ _ _ _ h1, ih h2]

theorem cloneGuardedErrs_eq_nil (setRemote : Option (List Char))
    (ex : CloneExits) (r : Repo) :
    cloneGuardedErrs setRemote ex r = []
      ↔ ex.cloneE r = 0
        ∧ (truthyOpt setRemote = true → ex.renameE r = 0 ∧ ex.addE r = 0) := by
  by_cases hc : ex.cloneE r = 0
  · by_cases hsr : truthyOpt setRemote = true
    · by_cases hr : ex.renameE r = 0
      · by_cases ha : ex.addE r = 0 <;>
          simp [cloneGuardedErrs, hc, hsr, hr, ha]
      · simp [cloneGuardedErrs, hc, hsr, hr]
    · simp [cloneGuardedErrs, hc, hsr]
  · simp [cloneGuardedErrs, hc]

theorem replaceAllGo_nil (old new : List Char) (fuel : Nat) :
    replaceAllGo old new fuel [] = [] := by
  cases fuel <;> rfl

theorem replaceAllGo_skip (old new : List Char) (k rest : List Char) :
    ∀ fuel : Nat, (k ++ rest).length ≤ fuel →
    (∀ p, p < k.length → ¬ (old <+: (k ++ rest).drop p)) →
    replaceAllGo old new fuel (k ++ rest)
      = k ++ replaceAllGo old new (fuel - k.length) rest := by
  induction k with
  | nil => intro fuel _ _; simp
  | cons c k2 ih =>
    intro fuel hf hp
    cases fuel with
    | zero => simp at hf
    | succ f =>
      have h0 : ¬ (old <+: c :: (k2 ++ rest)) := by
        have := hp 0 (by simp)
        simpa using this
      have hrec := ih f (by simp at hf ⊢; omega)
        (fun p hq => by
          have := hp (p + 1) (by simp; omega)
          simpa using this)
      simp [replaceAllGo, h0, hrec, Nat.succ_sub_succ]

theorem replaceAllGo_head (old new rest : List Char) (fuel : Nat)
    (h : old ≠ []) (hf : (old ++ rest).length ≤ fuel) :
    replaceAllGo old new fuel (old ++ rest)
      = new ++ replaceAllGo old new (fuel - 1) rest := by
  obtain ⟨o, os, rfl⟩ := List.exists_cons_of_ne_nil h
  cases fuel with
  | zero => simp at hf
  | succ f =>
    have hdrop : ((o :: os) ++ rest).drop (o :: os).length = rest := by
      simp
    have hpre : (o :: os) <+: (o :: os) ++ rest := List.prefix_append _ _
    simp only [List.cons_append] at hdrop hpre ⊢
    simp [replaceAllGo, hpre, hdrop, Nat.succ_sub_one]

theorem replaceAllGo_no_occ (old new s : List Char) (fuel : Nat)
    (hf : s.length ≤ fuel)
    (hp : ∀ p, p < s.length → ¬ (old <+: s.drop p)) :
    replaceAllGo old new fuel s = s := by
  have := replaceAllGo_skip old new s [] fuel (by simpa using hf)
    (fun p hq => by simpa using hp p hq)
  simpa [replaceAllGo_nil] using this

theorem takeWhile_append_stop (c : Char) (l t : List Char)
    (h : ∀ x ∈ l, x ≠ c) :
    (l ++ c :: t).takeWhile (fun x => x != c) = l := by
  induction l with
  | nil => simp [List.takeWhile]
  | cons a l2 ih =>
    have ha : (a != c) = true := bne_iff_ne.mpr (h a (by simp))
    have hrec := ih (fun x hx => h x (by simp [hx]))
    simp [List.takeWhile, ha, hrec]

theorem afterLastChar_eq (c : Char) (pre tail : List Char) (h : c ∉ tail) :
    afterLastChar c (pre ++ c :: tail) = tail := by
  have hrev : (pre ++ c :: tail).reverse = tail.reverse ++ c :: pre.reverse := by
    simp
  have ht : ∀ x ∈ tail.reverse, x ≠ c := by
    intro x hx hxc
    exact h (by simpa [hxc] using (List.mem_reverse.mp hx))
  rw [afterLastChar, hrev, takeWhile_append_stop c _ _ ht, List.reverse_reverse]

theorem replaceAll_append_tail (old new base : List Char) (ho : old ≠ [])
    (hp : ∀ p, p < base.length → ¬ (old <+: (base ++ old).drop p)) :
    replaceAll old new (base ++ old) = base ++ new := by
  rw [replaceAll, replaceAllGo_skip old new base old _ le_rfl hp]
  have hlen : (base ++ old).length - base.length = old.length := by simp
  have h2 := replaceAllGo_head old new [] old.length ho (by simp)
  simp only [replaceAllGo_nil, List.append_nil] at h2
  rw [hlen, h2]

theorem replaceAll_once (old new k tail : List Char) (ho : old ≠ [])
    (hpre : ∀ p, p < k.length → ¬ (old <+: (k ++ (old ++ tail)).drop p))
    (hpost : ∀ p, p < tail.length → ¬ (old <+: tail.drop p)) :
    replaceAll old new (k ++ (old ++ tail)) = k ++ (new ++ tail) := by
  rw [replaceAll, replaceAllGo_skip old new k (old ++ tail) _ le_rfl hpre]
  have hlen : (k ++ (old ++ tail)).length - k.length = old.length + tail.length := by
    simp
  have hone : 1 ≤ old.length := List.length_pos.mpr ho
  rw [hlen, replaceAllGo_head old new tail _ ho (by simp),
    replaceAllGo_no_occ old new tail _ (by omega) hpost]

theorem iterRepos_clone_eq (dest : List Char) (pe : List Char → Bool)
    (lines : List (List Char)) :
    iterRepos "clone".toList dest pe lines
      = (candidateRepos dest lines).filter (fun r => !(pe r.path)) := by
  induction lines with
  | nil => rfl
  | cons raw ls ih =>
    by_cases hskip : pyStrip raw = [] ∨ ['#'] <+: pyStrip raw
    · simp [iterRepos, candidateRepos, List.filterMap_cons, hskip]
      simpa [iterRepos, candidateRepos] using ih
    · by_cases hex : pe (pathJoin dest (deriveName (pyStrip raw))) = true
      · simp [iterRepos, candidateRepos, List.filterMap_cons, hskip, hex]
        simpa [iterRepos, candidateRepos] using ih
      · simp [iterRepos, candidateRepos, List.filterMap_cons, hskip, hex]
        simpa [iterRepos, candidateRepos] using ih

theorem iterRepos_other_eq (cmd dest : List Char) (pe : List Char → Bool)
    (lines : List (List Char)) (h : cmd ≠ "clone".toList) :
    iterRepos cmd dest pe lines
      = (candidateRepos dest lines).filter (fun r => pe r.path) := by
  have hb : cmd ≠ ['c', 'l', 'o', 'n', 'e'] := h
  induction lines with
  | nil => rfl
  | cons raw ls ih =>
    by_cases hskip : pyStrip raw = [] ∨ ['#'] <+: pyStrip raw
    · simp [iterRepos, candidateRepos, List.filterMap_cons, hskip, hb]
      simpa [iterRepos, candidateRepos, hb] using ih
    · by_cases hex : pe (pathJoin dest (deriveName (pyStrip raw))) = true
      · simp [iterRepos, candidateRepos, List.filterMap_cons, hskip, hex, hb]
        simpa [iterRepos, candidateRepos, hb] using ih
      · simp [iterRepos, candidateRepos, List.filterMap_cons, hskip, hex, hb]
        simpa [iterRepos, candidateRepos, hb] using ih

/-- Name derivation as the specification words it (`Modelled from the
spec`, for comparison only): the substring after the final slash with
only a TRAILING `.git` suffix stripped. -/
def specDeriveName (line : List Char) : List Char :=
  let seg := afterLastChar '/' line
  if ".git".toList.isSuffixOf seg then seg.take (seg.length - 4) else seg

/-- Sample resolved repository, from the spec example line. -/
def repoA : Repo :=
  ⟨"my-repo".toList, "./my-repo".toList, "git@github.com:org/my-repo.git".toList⟩

/-- A second sample resolved repository. -/
def repoB : Repo :=
  ⟨"tools".toList, "./tools".toList, "git@github.com:org/tools.git".toList⟩

/-- Sample config file: a comment line, a blank line, one entry. -/
def cfgLines : List (List Char) :=
  ["# managed repositories".toList, "".toList,
   "git@github.com:org/my-repo.git".toList]

/-- Sample sync exit codes: every command succeeds except the fetch in
`repoA`. -/
def syncExA : SyncExits :=
  ⟨fun _ => 0, fun r => if r = repoA then 1 else 0, fun _ => 0, fun _ => 0⟩

/-- C3, counterexample: with `--branch-default develop` and the current
branch read as `main`, the current branch differs from the configured
default, so the claim requires the hosting CLI to be invoked and no
error to be recorded; instead the code compares against the literal
`"main"` and aborts the whole run with the uncaught `TypeError` of the
stray `+"for this repository."` line — no `gh` call, no recorded error,
and processing does not move on. -/
theorem pr_branch_default_counterexample :
    prRepoStep "Fix".toList "develop".toList none none
        (fun _ => "main".toList) (fun _ => 0) (fun _ => 0) repoA = .error ()
    ∧ prLoop "Fix".toList "develop".toList none none
        (fun _ => "main".toList) (fun _ => 0) (fun _ => 0) [repoA, repoB]
      = .error ()
    ∧ (Except.error () : Except Unit PrTrace)
      ≠ .ok ⟨[prSkipErrMsg repoA], [], 0⟩ := by
  exact ⟨rfl, rfl, fun h => Except.noConfusion h⟩

/-- C3, amended: `pr` branches on whether the current branch equals the
LITERAL `main`, regardless of the configured `--branch-default` (which
only appears inside the `gh` argument vector): when no yielded
repository is on `main`, the hosting CLI is invoked once per repository
and no error is recorded; when a repository is on `main`, the hosting
CLI is not invoked for it and the whole run aborts with an uncaught
`TypeError` before any error is recorded. -/
theorem pr_literal_main_comparison :
    (∀ (title branchDefault : List Char) (githubUser body : Option (List Char))
        (cbf : Repo → List Char) (brE ghE : Repo → Nat) (rs : List Repo),
      (∀ r ∈ rs, cbf r ≠ "main".toList) →
      prLoop title branchDefault githubUser body cbf brE ghE rs
        = .ok ⟨[],
            rs.map (fun r =>
              (r, ghArgv title branchDefault githubUser body r.url (cbf r))),
            2 * rs.length⟩)
    ∧ (∀ (title branchDefault : List Char) (githubUser body : Option (List Char))
        (cbf : Repo → List Char) (brE ghE : Repo → Nat) (r : Repo)
        (rs : List Repo),
      cbf r = "main".toList →
      prLoop title branchDefault githubUser body cbf brE ghE (r :: rs)
        = .error ()) := by
  exact ⟨fun title bd gu body cbf brE ghE rs h =>
      prLoop_eq_of_no_main title bd gu body cbf brE ghE rs h,
    fun title bd gu body cbf brE ghE r rs h =>
      prLoop_abort_of_main title bd gu body cbf brE ghE r rs h⟩

/-- C3, amended, witness: a run whose repositories are all on `dev`
invokes `gh` for each of them, and a run whose first repository is on
`main` aborts. -/
theorem pr_literal_main_comparison_witness :
    (∀ r ∈ [repoA, repoB], (fun _ => "dev".toList) r ≠ "main".toList)
    ∧ prLoop "Fix".toList "main".toList none none (fun _ => "dev".toList)
        (fun _ => 0) (fun _ => 0) [repoA, repoB]
      = .ok ⟨[],
          [repoA, repoB].map (fun r =>
            (r, ghArgv "Fix".toList "main".toList none none r.url
              ((fun _ => "dev".toList) r))),
          2 * ([repoA, repoB] : List Repo).length⟩
    ∧ ((fun _ => "main".toList) repoA = "main".toList)
    ∧ prLoop "Fix".toList "main".toList none none (fun _ => "main".toList)
        (fun _ => 0) (fun _ => 0) [repoA] = .error () := by
  exact ⟨by decide,
    pr_literal_main_comparison.1 "Fix".toList "main".toList none none
      (fun _ => "dev".toList) (fun _ => 0) (fun _ => 0) [repoA, repoB]
      (by decide),
    by decide,
    pr_literal_main_comparison.2 "Fix".toList "main".toList none none
      (fun _ => "main".toList) (fun _ => 0) (fun _ => 0) repoA [] (by decide)⟩

/-- C4, counterexample: when `git apply` fails in a repository, the
`continue` in the `except` branch skips the `os.remove` line, so the
copied patch file is NOT removed, and the apply error is recorded. -/
theorem patch_copy_not_removed_counterexample :
    (patchRepoStep "fix.patch".toList (fun _ => 1) repoA).2 = false
    ∧ (patchRepoStep "fix.patch".toList (fun _ => 1) repoA).1
      = [patchErrMsg "fix.patch".toList repoA] := by
  exact ⟨rfl, rfl⟩

/-- C4, amended: the copy of the patch file placed in the working tree is
removed exactly when `git apply` succeeds for that repository; on apply
failure the error is recorded, the loop moves on, and the copy stays. -/
theorem patch_copy_removed_iff_apply_ok (p : List Char) (ae : Repo → Nat)
    (rs : List Repo) :
    (patchLoop p ae rs).2 = rs.map (fun r => (r, ae r == 0))
    ∧ (patchLoop p ae rs).1
      = (rs.filter (fun r => ae r != 0)).map (patchErrMsg p) := by
  exact ⟨patchLoop_snd p ae rs, patchLoop_fst p ae rs⟩

/-- C5, counterexample: invoking `branch` with no `--branch` is NOT a
process-fatal validation error: with no yielded repository the operation
returns the empty error list normally, and with a repository the loop IS
entered and dies with an uncaught `TypeError` — not the claimed
pre-loop fatal exit. -/
theorem branch_no_validation_counterexample :
    branchOp none (fun _ => 0) [] = .ret (some [])
    ∧ branchOp none (fun _ => 0) [repoA] = .exn
    ∧ BatchResult.ret (some []) ≠ .fatal
    ∧ BatchResult.exn ≠ .fatal := by
  refine ⟨rfl, rfl, by decide, by decide⟩

/-- C5, amended: `patch`, `pr`, `push` and `stage` validate their
required parameter up front and exit fatally before entering the
per-repository loop (likewise a missing patch file), but `branch`
performs no such validation: with `--branch` missing it returns an empty
error list when nothing is yielded, and otherwise enters the loop and
raises an uncaught `TypeError` there. -/
theorem required_param_validation_amended :
    (∀ (re : List Char) (pe : Repo → Nat) (rs : List Repo),
        pushOp none re pe rs = .fatal)
    ∧ (∀ (re : List Char) (pe : Repo → Nat) (rs : List Repo),
        pushOp (some []) re pe rs = .fatal)
    ∧ (∀ (files : List (List Char)) (ae : Repo → List Char → Nat)
          (ce : Repo → Nat) (rs : List Repo),
        stageOp none files ae ce rs = .fatal)
    ∧ (∀ (files : List (List Char)) (ae : Repo → List Char → Nat)
          (ce : Repo → Nat) (rs : List Repo),
        stageOp (some []) files ae ce rs = .fatal)
    ∧ (∀ (fe : Bool) (ae : Repo → Nat) (rs : List Repo),
        patchOp none fe ae rs = .fatal)
    ∧ (∀ (p : List Char) (ae : Repo → Nat) (rs : List Repo),
        patchOp (some p) false ae rs = .fatal)
    ∧ (∀ (bd : List Char) (gu body : Option (List Char)) (cbf : Repo → List Char)
          (brE ghE : Repo → Nat) (rs : List Repo),
        prOp none bd gu body cbf brE ghE rs = .fatal)
    ∧ (∀ (bd : List Char) (gu body : Option (List Char)) (cbf : Repo → List Char)
          (brE ghE : Repo → Nat) (rs : List Repo),
        prOp (some []) bd gu body cbf brE ghE rs = .fatal)
    ∧ (∀ se : Repo → Nat, branchOp none se [] = .ret (some []))
    ∧ (∀ (se : Repo → Nat) (r : Repo) (rs : List Repo),
        branchOp none se (r :: rs) = .exn) := by
  refine ⟨fun _ _ _ => rfl, fun _ _ _ => rfl, fun _ _ _ _ => rfl,
    fun _ _ _ _ => rfl, fun _ _ _ => rfl, ?_, fun _ _ _ _ _ _ _ => rfl,
    fun _ _ _ _ _ _ _ => rfl, fun _ => rfl, fun _ _ _ => rfl⟩
  intro p ae rs
  by_cases hp : p.isEmpty <;> simp [patchOp, falsyOpt, hp]

theorem prLoop_ok_inv (title bd : List Char) (gu body : Option (List Char))
    (cbf : Repo → List Char) (brE ghE : Repo → Nat) (rs : List Repo) :
    ∀ t : PrTrace, prLoop title bd gu body cbf brE ghE rs = .ok t →
      t.errors = [] ∧ t.sleepSeconds = 2 * t.ghCalls.length := by
  induction rs with
  | nil =>
    intro t ht
    simp [prLoop] at ht
    simp [← ht]
  | cons r rest ih =>
    intro t ht
    by_cases h : cbf r = "main".toList
    · simp [prLoop, prRepoStep_eq, h] at ht
    · have h4 : cbf r ≠ ['m', 'a', 'i', 'n'] := h
      cases hrest : prLoop title bd gu body cbf brE ghE rest with
      | error u => simp [prLoop, prRepoStep_eq, h4, hrest] at ht
      | ok t2 =>
        obtain ⟨he, hs⟩ := ih t2 hrest
        simp [prLoop, prRepoStep_eq, h4, hrest] at ht
        simp [← ht, he, hs]
        omega

/-- C9: both subprocess invocations of `pr` use `subprocess.run` without
`check`, which never raises, so the two `except` branches are
unreachable; the whole run (trace and abort behaviour) is therefore
independent of the exit codes of both commands, and whenever the loop
completes, its error list is empty — a `gh` failure is never recorded —
and the total sleep is exactly the fixed 2-second pause after every `gh`
invocation, successful or not. -/
theorem pr_run_unchecked :
    (∀ e : Nat, subprocessRun false e = .ok e)
    ∧ (∀ (title bd : List Char) (gu body : Option (List Char))
          (cbf : Repo → List Char) (b1 g1 b2 g2 : Repo → Nat) (rs : List Repo),
        prLoop title bd gu body cbf b1 g1 rs = prLoop title bd gu body cbf b2 g2 rs)
    ∧ (∀ (title bd : List Char) (gu body : Option (List Char))
          (cbf : Repo → List Char) (brE ghE : Repo → Nat) (rs : List Repo)
          (t : PrTrace),
        prLoop title bd gu body cbf brE ghE rs = .ok t →
        t.errors = [] ∧ t.sleepSeconds = 2 * t.ghCalls.length) := by
  refine ⟨fun _ => rfl, ?_, ?_⟩
  · intro title bd gu body cbf b1 g1 b2 g2 rs
    exact prLoop_oracle_indep title bd gu body cbf b1 g1 b2 g2 rs
  · intro title bd gu body cbf brE ghE rs t ht
    exact prLoop_ok_inv title bd gu body cbf brE ghE rs t ht

/-- C9, witness: a repository on `dev` whose branch read and `gh`
invocation both exit non-zero: nothing raises, no error is recorded,
and the 2-second pause runs after the one `gh` call. -/
theorem pr_run_unchecked_witness :
    prLoop "T".toList "main".toList none none (fun _ => "dev".toList)
        (fun _ => 1) (fun _ => 1) [repoA]
      = .ok ⟨[], [(repoA, ghArgv "T".toList "main".toList none none repoA.url
          "dev".toList)], 2⟩
    ∧ (⟨[], [(repoA, ghArgv "T".toList "main".toList none none repoA.url
          "dev".toList)], 2⟩ : PrTrace).errors = []
    ∧ (⟨[], [(repoA, ghArgv "T".toList "main".toList none none repoA.url
          "dev".toList)], 2⟩ : PrTrace).sleepSeconds
      = 2 * (⟨[], [(repoA, ghArgv "T".toList "main".toList none none repoA.url
          "dev".toList)], 2⟩ : PrTrace).ghCalls.length := by
  exact ⟨rfl,
    (pr_run_unchecked.2.2 "T".toList "main".toList none none
      (fun _ => "dev".toList) (fun _ => 1) (fun _ => 1) [repoA]
      ⟨[], [(repoA, ghArgv "T".toList "main".toList none none repoA.url
        "dev".toList)], 2⟩ rfl).1,
    (pr_run_unchecked.2.2 "T".toList "main".toList none none
      (fun _ => "dev".toList) (fun _ => 1) (fun _ => 1) [repoA]
      ⟨[], [(repoA, ghArgv "T".toList "main".toList none none repoA.url
        "dev".toList)], 2⟩ rfl).2⟩

/-- C10: in `stage`, a failed `git add` records an error and continues,
but never skips the commit of that repository — the commit is attempted for
every yielded repository — and the `git commit` invocation always
carries the LAST element of the file list as its sole path argument. -/
theorem stage_commits_last_file (files : List (List Char))
    (ae : Repo → List Char → Nat) (ce : Repo → Nat) (rs : List Repo)
    (h : files ≠ []) :
    stageLoop files ae ce rs
      = .ok ((rs.map (fun r =>
            (files.filter (fun f => ae r f != 0)).map (fun _ => stageErrMsg r)
              ++ (if ce r != 0 then [stageErrMsg r] else []))).flatten,
          rs.map (fun r => (r, files.getLastD []))) := by
  exact stageLoop_eq files ae ce rs h

theorem stageGuardedErrs_eq_nil (files : List (List Char))
    (ae : Repo → List Char → Nat) (ce : Repo → Nat) (r : Repo) :
    stageGuardedErrs files ae ce r = []
      ↔ (∀ f ∈ files, ae r f = 0) ∧ ce r = 0 := by
  by_cases hc : ce r = 0
  · simp [stageGuardedErrs, hc, List.filter_eq_nil_iff]
  · simp [stageGuardedErrs, hc]

/-- C1, counterexample: the `git switch` at the top of the `sync` loop is
not guarded by a `try`; with the switch failing in the first repository
the whole batch aborts with an uncaught `CalledProcessError` — no error
string is appended and the remaining repository is never processed. -/
theorem sync_switch_abort_counterexample :
    syncOp "main".toList "origin".toList false
        ⟨fun _ => 1, fun _ => 0, fun _ => 0, fun _ => 0⟩ [repoA, repoB] = .exn
    ∧ BatchResult.exn ≠ .ret (some []) := by
  exact ⟨rfl, by decide⟩

/-- C1, amended: the per-repository commands of `branch`, `push`, `patch`
and `stage` are all guarded — each failure appends one formatted error
and the loop continues — and so are the fetch, rebase and push steps of
`sync` and the clone, rename and add steps of `clone`. The exceptions
are: the `git switch` of `sync` and the `git remote -v` of `clone`,
whose non-zero exit raises and aborts the whole batch; and the two
`subprocess.run` invocations of `pr`, which never raise, so their
failures are recorded nowhere. -/
theorem guarded_error_collection_amended :
    (∀ (b : List Char) (se : Repo → Nat) (rs : List Repo),
        branchOp (some b) se rs
          = .ret (some ((rs.filter (fun r => se r != 0)).map (branchErrMsg b))))
    ∧ (∀ (b re : List Char) (pe : Repo → Nat) (rs : List Repo), b ≠ [] →
        pushOp (some b) re pe rs
          = .ret (some ((rs.filter (fun r => pe r != 0)).map (pushErrMsg b re))))
    ∧ (∀ (p : List Char) (ae : Repo → Nat) (rs : List Repo), p ≠ [] →
        patchOp (some p) true ae rs
          = .ret (some ((rs.filter (fun r => ae r != 0)).map (patchErrMsg p))))
    ∧ (∀ (m : List Char) (files : List (List Char)) (ae : Repo → List Char → Nat)
          (ce : Repo → Nat) (rs : List Repo), m ≠ [] → files ≠ [] →
        stageOp (some m) files ae ce rs
          = .ret (some ((rs.map (stageGuardedErrs files ae ce)).flatten)))
    ∧ (∀ (bd re : List Char) (pf : Bool) (ex : SyncExits) (rs : List Repo),
        (∀ r ∈ rs, ex.switchE r = 0) →
        syncOp bd re pf ex rs
          = .ret (some ((rs.map (syncGuardedErrs bd re pf ex)).flatten)))
    ∧ (∀ (bd re : List Char) (pf : Bool) (ex : SyncExits) (r : Repo)
          (rs : List Repo),
        ex.switchE r ≠ 0 → syncOp bd re pf ex (r :: rs) = .exn)
    ∧ (∀ (sr gu : Option (List Char)) (ex : CloneExits) (rs : List Repo),
        (truthyOpt sr && gu.isNone) = false →
        (∀ r ∈ rs, ex.remoteVE r = 0) →
        cloneOp sr gu ex rs
          = .ret (some ((rs.map (cloneGuardedErrs sr ex)).flatten)))
    ∧ (∀ (sr gu : Option (List Char)) (ex : CloneExits) (r : Repo)
          (rs : List Repo),
        (truthyOpt sr && gu.isNone) = false → ex.cloneE r = 0 →
        (truthyOpt sr = true → ex.renameE r = 0 ∧ ex.addE r = 0) →
        ex.remoteVE r ≠ 0 →
        cloneOp sr gu ex (r :: rs) = .exn)
    ∧ (∀ (title bd : List Char) (gu body : Option (List Char))
          (cbf : Repo → List Char) (brE ghE : Repo → Nat) (rs : List Repo)
          (t : PrTrace),
        prLoop title bd gu body cbf brE ghE rs = .ok t → t.errors = []) := by
  refine ⟨?_, ?_, ?_, ?_, ?_, ?_, ?_, ?_, ?_⟩
  · intro b se rs
    simp [branchOp, branchLoop_eq]
  · intro b re pe rs hb
    simp [pushOp, falsyOpt, hb, pushLoop_eq]
  · intro p ae rs hp
    simp [patchOp, falsyOpt, hp, patchLoop_fst]
  · intro m files ae ce rs hm hfiles
    simp [stageOp, falsyOpt, hm, stageLoop_eq _ _ _ _ hfiles]
  · intro bd re pf ex rs h
    simp [syncOp, syncLoop_eq_of_switch _ _ _ _ _ h]
  · intro bd re pf ex r rs h
    simp [syncOp, syncLoop, syncRepoStep_eq_of_switch_fail _ _ _ _ _ h]
  · intro sr gu ex rs hguard h
    simp [cloneOp, hguard, cloneLoop_eq_of_remoteV _ _ _ _ h]
  · intro sr gu ex r rs hguard hc hra hv
    simp [cloneOp, hguard, cloneLoop, cloneRepoStep_abort _ _ _ _ hc hra hv]
  · intro title bd gu body cbf brE ghE rs t ht
    exact (prLoop_ok_inv title bd gu body cbf brE ghE rs t ht).1

/-- C1, amended, witness: `sync` over two repositories with every switch
succeeding and the fetch failing in the first returns the two-entry... -/
theorem guarded_error_collection_amended_witness :
    (∀ r ∈ [repoA, repoB], syncExA.switchE r = 0)
    ∧ syncOp "main".toList "origin".toList false syncExA [repoA, repoB]
      = .ret (some (([repoA, repoB].map
          (syncGuardedErrs "main".toList "origin".toList false syncExA)).flatten)) := by
  exact ⟨by decide,
    guarded_error_collection_amended.2.2.2.2.1 "main".toList "origin".toList
      false syncExA [repoA, repoB] (by decide)⟩

/-- C2, counterexample: `pr` has no `return` statement, so when its loop
completes it returns Python `None` to the caller instead of the
accumulated ErrorList. -/
theorem pr_returns_none_counterexample :
    prOp (some "T".toList) "main".toList none none (fun _ => "dev".toList)
        (fun _ => 0) (fun _ => 0) [repoA] = .ret none
    ∧ BatchResult.ret none ≠ .ret (some []) := by
  exact ⟨rfl, by decide⟩

/-- C2, amended: six of the seven operations (`branch`, `clone`, `patch`,
`push`, `stage`, `sync`) return the accumulated ErrorList once the
repository sequence is exhausted, and the returned list is empty iff
every guarded per-repository step succeeded (for `sync` and `clone` this
is conditional on the unguarded step never failing, which would abort
instead of return); `pr` never returns its ErrorList: with no yielded
repository on branch `main` it returns `None`, and with one the run
aborts with the uncaught `TypeError` of line 184. -/
theorem operations_return_errorlist_amended :
    (∀ (b : List Char) (se : Repo → Nat) (rs : List Repo),
        branchOp (some b) se rs = .ret (some (branchLoop b se rs))
        ∧ (branchLoop b se rs = [] ↔ ∀ r ∈ rs, se r = 0))
    ∧ (∀ (b re : List Char) (pe : Repo → Nat) (rs : List Repo), b ≠ [] →
        pushOp (some b) re pe rs = .ret (some (pushLoop b re pe rs))
        ∧ (pushLoop b re pe rs = [] ↔ ∀ r ∈ rs, pe r = 0))
    ∧ (∀ (p : List Char) (ae : Repo → Nat) (rs : List Repo), p ≠ [] →
        patchOp (some p) true ae rs = .ret (some (patchLoop p ae rs).1)
        ∧ ((patchLoop p ae rs).1 = [] ↔ ∀ r ∈ rs, ae r = 0))
    ∧ (∀ (m : List Char) (files : List (List Char)) (ae : Repo → List Char → Nat)
          (ce : Repo → Nat) (rs : List Repo), m ≠ [] → files ≠ [] →
        stageOp (some m) files ae ce rs
            = .ret (some ((rs.map (stageGuardedErrs files ae ce)).flatten))
        ∧ ((rs.map (stageGuardedErrs files ae ce)).flatten = []
            ↔ ∀ r ∈ rs, (∀ f ∈ files, ae r f = 0) ∧ ce r = 0))
    ∧ (∀ (bd re : List Char) (pf : Bool) (ex : SyncExits) (rs : List Repo),
        (∀ r ∈ rs, ex.switchE r = 0) →
        syncOp bd re pf ex rs
            = .ret (some ((rs.map (syncGuardedErrs bd re pf ex)).flatten))
        ∧ ((rs.map (syncGuardedErrs bd re pf ex)).flatten = []
            ↔ ∀ r ∈ rs, ex.fetchE r = 0 ∧ ex.rebaseE r = 0
                ∧ (pf = true → ex.pushE r = 0)))
    ∧ (∀ (sr gu : Option (List Char)) (ex : CloneExits) (rs : List Repo),
        (truthyOpt sr && gu.isNone) = false →
        (∀ r ∈ rs, ex.remoteVE r = 0) →
        cloneOp sr gu ex rs
            = .ret (some ((rs.map (cloneGuardedErrs sr ex)).flatten))
        ∧ ((rs.map (cloneGuardedErrs sr ex)).flatten = []
            ↔ ∀ r ∈ rs, ex.cloneE r = 0
                ∧ (truthyOpt sr = true → ex.renameE r = 0 ∧ ex.addE r = 0)))
    ∧ (∀ (t bd : List Char) (gu body : Option (List Char))
          (cbf : Repo → List Char) (brE ghE : Repo → Nat) (rs : List Repo),
        t ≠ [] → (∀ r ∈ rs, cbf r ≠ "main".toList) →
        prOp (some t) bd gu body cbf brE ghE rs = .ret none)
    ∧ (∀ (t bd : List Char) (gu body : Option (List Char))
          (cbf : Repo → List Char) (brE ghE : Repo → Nat) (r : Repo)
          (rs : List Repo),
        t ≠ [] → cbf r = "main".toList →
        prOp (some t) bd gu body cbf brE ghE (r :: rs) = .exn) := by
  refine ⟨?_, ?_, ?_, ?_, ?_, ?_, ?_, ?_⟩
  · intro b se rs
    refine ⟨rfl, ?_⟩
    simp [branchLoop_eq, List.filter_eq_nil_iff]
  · intro b re pe rs hb
    constructor
    · simp [pushOp, falsyOpt, hb]
    · simp [pushLoop_eq, List.filter_eq_nil_iff]
  · intro p ae rs hp
    constructor
    · simp [patchOp, falsyOpt, hp]
    · simp [patchLoop_fst, List.filter_eq_nil_iff]
  · intro m files ae ce rs hm hfiles
    constructor
    · simp [stageOp, falsyOpt, hm, stageLoop_eq _ _ _ _ hfiles]
    · simp [stageGuardedErrs_eq_nil]
  · intro bd re pf ex rs h
    constructor
    · simp [syncOp, syncLoop_eq_of_switch _ _ _ _ _ h]
    · simp [syncGuardedErrs_eq_nil]
  · intro sr gu ex rs hguard h
    constructor
    · simp [cloneOp, hguard, cloneLoop_eq_of_remoteV _ _ _ _ h]
    · simp [cloneGuardedErrs_eq_nil]
  · intro t bd gu body cbf brE ghE rs ht hmain
    have hfalse : falsyOpt (some t) = false := by simp [falsyOpt, ht]
    simp [prOp, hfalse, prLoop_eq_of_no_main _ _ _ _ _ _ _ _ hmain]
  · intro t bd gu body cbf brE ghE r rs ht hmain
    have hfalse : falsyOpt (some t) = false := by simp [falsyOpt, ht]
    simp [prOp, hfalse, prLoop_abort_of_main _ _ _ _ _ _ _ _ _ hmain]

/-- C2, amended, witness: a concrete `pr` run with no repository on
`main` returns `None`, and a concrete fully-successful `branch` run
returns the empty list. -/
theorem operations_return_errorlist_amended_witness :
    ("T".toList ≠ ([] : List Char))
    ∧ (∀ r ∈ [repoA, repoB], (fun _ => "dev".toList) r ≠ "main".toList)
    ∧ prOp (some "T".toList) "dev".toList none none (fun _ => "dev".toList)
        (fun _ => 0) (fun _ => 0) [repoA, repoB] = .ret none
    ∧ (branchOp (some "feat".toList) (fun _ => 0) [repoA, repoB]
        = .ret (some (branchLoop "feat".toList (fun _ => 0) [repoA, repoB]))
      ∧ (branchLoop "feat".toList (fun _ => 0) [repoA, repoB] = []
          ↔ ∀ r ∈ [repoA, repoB], (fun _ => (0 : Nat)) r = 0)) := by
  exact ⟨by decide, by decide,
    operations_return_errorlist_amended.2.2.2.2.2.2.1 "T".toList "dev".toList
      none none (fun _ => "dev".toList) (fun _ => 0) (fun _ => 0)
      [repoA, repoB] (by decide) (by decide),
    operations_return_errorlist_amended.1 "feat".toList (fun _ => 0)
      [repoA, repoB]⟩

/-- C6, counterexample: `str.replace(".git", "")` removes EVERY
occurrence of `.git`, not only a trailing suffix. On the config line
`git@github.com:org/my.github.git` — which passes the config validation
regex — the code derives `myhub`, while the claimed trailing-strip
derivation gives `my.github`. -/
theorem derive_name_counterexample :
    deriveName "git@github.com:org/my.github.git".toList = "myhub".toList
    ∧ specDeriveName "git@github.com:org/my.github.git".toList
      = "my.github".toList
    ∧ deriveName "git@github.com:org/my.github.git".toList
      ≠ specDeriveName "git@github.com:org/my.github.git".toList
    ∧ validLine "git@github.com:org/my.github.git".toList = true := by
  exact ⟨by decide, by decide, by decide, by decide⟩

/-- C6, amended: the derived name is the substring after the final `/`
with EVERY occurrence of `.git` removed; when `.git` occurs in that
substring only as the trailing suffix, this coincides with stripping the
suffix, and the derived path is the destination joined with the name; in
particular for `git@github.com:org/my-repo.git` the name is `my-repo`
and the path `<destination>/my-repo`. -/
theorem derive_name_amended :
    (∀ pre base : List Char, ('/' : Char) ∉ base →
        (∀ p, p < base.length →
            ¬ (".git".toList <+: (base ++ ".git".toList).drop p)) →
        deriveName (pre ++ '/' :: (base ++ ".git".toList)) = base)
    ∧ deriveName "git@github.com:org/my-repo.git".toList = "my-repo".toList
    ∧ (∀ dest : List Char,
        pathJoin dest (deriveName "git@github.com:org/my-repo.git".toList)
          = dest ++ '/' :: "my-repo".toList) := by
  refine ⟨?_, by decide, ?_⟩
  · intro pre base hs hp
    have hslash : ('/' : Char) ∉ base ++ ".git".toList := by
      intro hmem
      rcases List.mem_append.mp hmem with h1 | h2
      · exact hs h1
      · exact absurd h2 (by decide)
    rw [deriveName, afterLastChar_eq _ _ _ hslash,
      replaceAll_append_tail _ _ _ (by decide) hp, List.append_nil]
  · intro dest
    have h : deriveName "git@github.com:org/my-repo.git".toList
        = "my-repo".toList := by decide
    rw [h]
    rfl

/-- C6, amended, witness: the general clause applied to the spec example
line, split as prefix, slash, base and suffix. -/
theorem derive_name_amended_witness :
    (('/' : Char) ∉ "my-repo".toList)
    ∧ deriveName ("git@github.com:org".toList
        ++ '/' :: ("my-repo".toList ++ ".git".toList)) = "my-repo".toList := by
  exact ⟨by decide,
    derive_name_amended.1 "git@github.com:org".toList "my-repo".toList
      (by decide) (by decide)⟩

/-- C7: the existence filter of the resolver branches exactly on the
operation: for `clone` the yielded entries are the config entries whose
local path does NOT yet exist, so when every candidate path exists a
second `clone` run attempts nothing; for every other operation the
yielded entries are exactly the config entries whose local path exists,
in file order. -/
theorem iter_repos_existence_filter :
    (∀ (dest : List Char) (pe : List Char → Bool) (lines : List (List Char)),
        iterRepos "clone".toList dest pe lines
          = (candidateRepos dest lines).filter (fun r => !(pe r.path)))
    ∧ (∀ (cmd dest : List Char) (pe : List Char → Bool)
          (lines : List (List Char)), cmd ≠ "clone".toList →
        iterRepos cmd dest pe lines
          = (candidateRepos dest lines).filter (fun r => pe r.path))
    ∧ (∀ (dest : List Char) (pe : List Char → Bool) (lines : List (List Char)),
        (∀ r ∈ candidateRepos dest lines, pe r.path = true) →
        iterRepos "clone".toList dest pe lines = []) := by
  refine ⟨iterRepos_clone_eq, iterRepos_other_eq, ?_⟩
  intro dest pe lines h
  rw [iterRepos_clone_eq]
  refine List.filter_eq_nil_iff.mpr ?_
  intro r hr
  simp [h r hr]

/-- C7, witness: on a sample config with a comment, a blank line and one
entry, with every path existing, a non-clone operation yields the entry
and `clone` yields nothing. -/
theorem iter_repos_existence_filter_witness :
    ("sync".toList ≠ "clone".toList)
    ∧ iterRepos "sync".toList ".".toList (fun _ => true) cfgLines
      = (candidateRepos ".".toList cfgLines).filter (fun r => (fun _ => true) r.path)
    ∧ iterRepos "clone".toList ".".toList (fun _ => true) cfgLines = [] := by
  exact ⟨by decide,
    iter_repos_existence_filter.2.1 "sync".toList ".".toList (fun _ => true)
      cfgLines (by decide),
    iter_repos_existence_filter.2.2 ".".toList (fun _ => true) cfgLines
      (by decide)⟩

/-- C8, counterexample: the fork URL is computed with `str.replace`,
which substitutes EVERY occurrence of the owner substring in the URL.
For the validated line `git@github.com:hub/x.git` the owner `hub` also
occurs inside the host `github`, so the host segment is mangled to
`gitalice.com` — not left unchanged as claimed. -/
theorem fork_url_counterexample :
    computeForkUrl "git@github.com:hub/x.git".toList "alice".toList
      = "git@gitalice.com:alice/x.git".toList
    ∧ computeForkUrl "git@github.com:hub/x.git".toList "alice".toList
      ≠ "git@github.com:alice/x.git".toList
    ∧ validLine "git@github.com:hub/x.git".toList = true := by
  exact ⟨by decide, by decide, by decide⟩

/-- C8, amended: the fork URL is the original URL with every occurrence
of the owner substring replaced by the GitHub user; when the owner
string occurs in the URL only as the owner segment (between `:` and
`/`), exactly that segment is substituted and host and repository name
are unchanged. -/
theorem fork_url_amended (host owner nm user : List Char)
    (ho : owner ≠ []) (hc1 : (':' : Char) ∉ owner) (hs : ('/' : Char) ∉ owner)
    (hc2 : (':' : Char) ∉ nm)
    (hpre : ∀ p, p < host.length + 1 →
        ¬ (owner <+: (host ++ ':' :: (owner ++ '/' :: nm)).drop p))
    (hpost : ∀ p, p < ('/' :: nm).length → ¬ (owner <+: ('/' :: nm).drop p)) :
    computeForkUrl (host ++ ':' :: (owner ++ '/' :: nm)) user
      = host ++ ':' :: (user ++ '/' :: nm) := by
  have hcolon : (':' : Char) ∉ owner ++ '/' :: nm := by
    intro hmem
    rcases List.mem_append.mp hmem with h1 | h2
    · exact hc1 h1
    · rcases List.mem_cons.mp h2 with h3 | h4
      · exact absurd h3 (by decide)
      · exact hc2 h4
  have hafter : afterLastChar ':' (host ++ ':' :: (owner ++ '/' :: nm))
      = owner ++ '/' :: nm := afterLastChar_eq ':' host _ hcolon
  have howner : ownerOf (host ++ ':' :: (owner ++ '/' :: nm)) = owner := by
    rw [ownerOf, hafter]
    exact takeWhile_append_stop '/' owner nm (fun x hx hxc => hs (hxc ▸ hx))
  have hpre2 : ∀ p, p < (host ++ [':']).length →
      ¬ (owner <+: ((host ++ [':']) ++ (owner ++ ('/' :: nm))).drop p) := by
    intro p hlt hcon
    refine hpre p (by simpa using hlt) ?_
    simpa using hcon
  rw [computeForkUrl, howner,
    show host ++ ':' :: (owner ++ '/' :: nm)
        = (host ++ [':']) ++ (owner ++ ('/' :: nm)) by simp,
    replaceAll_once owner user (host ++ [':']) ('/' :: nm) ho hpre2 hpost]
  simp

/-- C8, amended, witness: the general statement applied to the spec
example URL with owner `org` and user `alice`: only the owner segment
changes. -/
theorem fork_url_amended_witness :
    ("org".toList ≠ ([] : List Char))
    ∧ computeForkUrl ("git@github.com".toList
          ++ ':' :: ("org".toList ++ '/' :: "my-repo.git".toList)) "alice".toList
      = "git@github.com".toList ++ ':' :: ("alice".toList ++ '/' :: "my-repo.git".toList) := by
  exact ⟨by decide,
    fork_url_amended "git@github.com".toList "org".toList "my-repo.git".toList
      "alice".toList (by decide) (by decide) (by decide) (by decide) (by decide)
      (by decide)⟩

/-- C10, witness: two files where the add of the first fails; the commit
still runs and its path argument is the last file. -/
theorem stage_commits_last_file_witness :
    (["a".toList, "b".toList] : List (List Char)) ≠ []
    ∧ stageLoop ["a".toList, "b".toList]
        (fun _ f => if f = "a".toList then 1 else 0) (fun _ => 0) [repoA]
      = .ok (([repoA].map (fun r =>
            ((["a".toList, "b".toList].filter
                (fun f => (if f = "a".toList then 1 else 0) != 0))).map
              (fun _ => stageErrMsg r)
              ++ (if (0 : Nat) != 0 then [stageErrMsg r] else []))).flatten,
          [repoA].map (fun r => (r, ["a".toList, "b".toList].getLastD []))) := by
  exact ⟨by decide,
    stage_commits_last_file ["a".toList, "b".toList]
      (fun _ f => if f = "a".toList then 1 else 0) (fun _ => 0) [repoA] (by decide)⟩

end ManageRepos
